import Mathlib

/-!
# Verification of `bayesian_network.py`

Shallow embedding of the Bayesian-network enumeration engine in
`src/bayesian_network.py`.  Python floats are modelled as exact rationals
(`ℚ`); every constant in the source is a short decimal, so each CPT value is
represented exactly.  Python dicts (`Dict[str, bool]`) are modelled as
association lists with insert-overwrite semantics; a `KeyError` raised by
`d[k]` on a missing key is modelled by `Option`.  A second, heap-indexed
embedding (`Store` / `enumerate_allS` / `enumeration_askS`) makes the
`dict(evidence)` copies of the source explicit, so that non-mutation of the
caller's dictionary is a provable statement rather than a by-construction
triviality.
-/

/-- A Python `Dict[str, bool]`: an association list, first match wins. -/
abbrev Dict := List (String × Bool)

/-- Key lookup, `d.get(k)` / `k in d`: first entry with the key, if any. -/
def dGet : Dict → String → Option Bool
  | [], _ => none
  | p :: rest, k => if p.1 = k then some p.2 else dGet rest k

/-- `d[k] = v` on a (fresh copy of a) dict: the key is overwritten. -/
def dInsert (d : Dict) (k : String) (v : Bool) : Dict :=
  d.filter (fun p => !(p.1 == k)) ++ [(k, v)]

/-- Removal of a key, used to state claims about reduced evidence. -/
def dRemove (d : Dict) (k : String) : Dict :=
  d.filter (fun p => !(p.1 == k))

/-- `NODES = ["Cloudy", "Sprinkler", "Rain", "WetGrass"]` (line 26). -/
def NODES : List String := ["Cloudy", "Sprinkler", "Rain", "WetGrass"]

/-- CPT for `Cloudy` (lines 30-32): `P(Cloudy=True) = 0.5`. -/
def p_cloudy (_parents : Dict) : ℚ := 1/2

/-- CPT for `Sprinkler` (lines 34-36): `0.1 if parents.get("Cloudy", False) else 0.5`. -/
def p_sprinkler (parents : Dict) : ℚ :=
  if (dGet parents "Cloudy").getD false then 1/10 else 1/2

/-- CPT for `Rain` (lines 38-40): `0.8 if parents.get("Cloudy", False) else 0.2`. -/
def p_rain (parents : Dict) : ℚ :=
  if (dGet parents "Cloudy").getD false then 4/5 else 1/5

/-- CPT for `WetGrass` (lines 42-53): 0.99 if both parents, 0.9 if exactly one, 0.0 if neither. -/
def p_wetgrass (parents : Dict) : ℚ :=
  let s := (dGet parents "Sprinkler").getD false
  let r := (dGet parents "Rain").getD false
  if s && r then 99/100
  else if s && !r then 9/10
  else if !s && r then 9/10
  else 0

/-- `BAYES_NET` (lines 56-61): node -> (parents, CPT function); `none` models the
`KeyError` of `BAYES_NET[node]` for an unknown node. -/
def BAYES_NET (node : String) : Option (List String × (Dict → ℚ)) :=
  if node = "Cloudy" then some ([], p_cloudy)
  else if node = "Sprinkler" then some (["Cloudy"], p_sprinkler)
  else if node = "Rain" then some (["Cloudy"], p_rain)
  else if node = "WetGrass" then some (["Sprinkler", "Rain"], p_wetgrass)
  else none

/-- The dict comprehension `{p: assignment[p] for p in parents}` of line 66:
`none` models the `KeyError` when a parent key is missing. -/
def restrict (assignment : Dict) : List String → Option Dict
  | [] => some []
  | p :: ps => do
    let v ← dGet assignment p
    let rest ← restrict assignment ps
    return (p, v) :: rest

/-- `prob_of` (lines 63-68): `P(node=value | parents in assignment)`. -/
def prob_of (node : String) (value : Bool) (assignment : Dict) : Option ℚ := do
  let (parents, cpt) ← BAYES_NET node
  let parent_vals ← restrict assignment parents
  let p_true := cpt parent_vals
  return (if value then p_true else 1 - p_true)

/-- `joint_prob` (lines 70-76): product over `NODES` of
`prob_of(node, assignment[node], assignment)`. -/
def joint_prob (assignment : Dict) : Option ℚ :=
  NODES.foldlM (fun p node => do
    let val ← dGet assignment node
    let q ← prob_of node val assignment
    return p * q) (1 : ℚ)

/-- `enumerate_all` (lines 78-91): recursive enumeration, summing out
unobserved variables.  The `True` branch is computed before the `False`
branch, each on a copy of the evidence, as in the source loop. -/
def enumerate_all : List String → Dict → Option ℚ
  | [], _ => some 1
  | first :: rest, evidence =>
    match dGet evidence first with
    | some b => do
      let p ← prob_of first b evidence
      let q ← enumerate_all rest evidence
      return p * q
    | none => do
      let pT ← prob_of first true (dInsert evidence first true)
      let qT ← enumerate_all rest (dInsert evidence first true)
      let pF ← prob_of first false (dInsert evidence first false)
      let qF ← enumerate_all rest (dInsert evidence first false)
      return pT * qT + pF * qF

/-- `enumeration_ask` (lines 93-107): the pair is `(Q[True], Q[False])`
after normalization, `(0, 0)` when the total is zero. -/
def enumeration_ask (query : String) (evidence : Dict) : Option (ℚ × ℚ) := do
  let qT ← enumerate_all NODES (dInsert evidence query true)
  let qF ← enumerate_all NODES (dInsert evidence query false)
  let total := qT + qF
  if total = 0 then return ((0 : ℚ), (0 : ℚ))
  else return (qT / total, qF / total)

/-- The complete assignment over the four example variables, for stating
claims that quantify over all 16 boolean assignments. -/
def mkAssign (c s r w : Bool) : Dict :=
  [("Cloudy", c), ("Sprinkler", s), ("Rain", r), ("WetGrass", w)]

/-- All 16 complete assignments of the example network. -/
def allAssignments : List Dict :=
  [true, false].flatMap fun c =>
    [true, false].flatMap fun s =>
      [true, false].flatMap fun r =>
        [true, false].map fun w => mkAssign c s r w

/-! ## Heap-indexed embedding

The source copies the evidence dict (`dict(evidence)`, lines 88 and 101)
before extending it.  To make the claim "the caller's dictionary is not
mutated" a real statement, dicts live in a store of references; `d[k] = v`
is a write through a reference, and `dict(d)` allocates a fresh reference
holding a copy.  The enumeration functions are re-embedded in state-passing
style over that store; all other logic is identical to the pure embedding. -/

/-- A heap of dictionaries: contents indexed by reference, plus the next
fresh reference. -/
structure Store where
  mem : Nat → Dict
  next : Nat

/-- Dereference: the dict currently held by reference `r`. -/
def readRef (s : Store) (r : Nat) : Dict := s.mem r

/-- `dict(d)`: allocate a fresh reference holding `d`, returning it. -/
def alloc (s : Store) (d : Dict) : Store × Nat :=
  ({ mem := fun r => if r = s.next then d else s.mem r, next := s.next + 1 }, s.next)

/-- `d[k] = v` through reference `r`: in-place update of the stored dict. -/
def writeKey (s : Store) (r : Nat) (k : String) (v : Bool) : Store :=
  { s with mem := fun x => if x = r then dInsert (s.mem r) k v else s.mem x }

/-- `enumerate_all` (lines 78-91) in state-passing style: the evidence is a
reference `ev` into the store; `new_evidence = dict(evidence)` allocates,
`new_evidence[first] = val` writes through the fresh reference. -/
def enumerate_allS : List String → Store → Nat → Option (ℚ × Store)
  | [], s, _ => some (1, s)
  | first :: rest, s, ev =>
    match dGet (readRef s ev) first with
    | some b => do
      let p ← prob_of first b (readRef s ev)
      let (q, s') ← enumerate_allS rest s ev
      return (p * q, s')
    | none => do
      let (s1, r1) := alloc s (readRef s ev)
      let s2 := writeKey s1 r1 first true
      let pT ← prob_of first true (readRef s2 r1)
      let (qT, s3) ← enumerate_allS rest s2 r1
      let (s4, r2) := alloc s3 (readRef s3 ev)
      let s5 := writeKey s4 r2 first false
      let pF ← prob_of first false (readRef s5 r2)
      let (qF, s6) ← enumerate_allS rest s5 r2
      return (pT * qT + pF * qF, s6)

/-- `enumeration_ask` (lines 93-107) in state-passing style: `extended =
dict(evidence)` allocates a copy, `extended[query] = val` writes it. -/
def enumeration_askS (query : String) (s : Store) (ev : Nat) :
    Option ((ℚ × ℚ) × Store) := do
  let (s1, r1) := alloc s (readRef s ev)
  let s2 := writeKey s1 r1 query true
  let (qT, s3) ← enumerate_allS NODES s2 r1
  let (s4, r2) := alloc s3 (readRef s3 ev)
  let s5 := writeKey s4 r2 query false
  let (qF, s6) ← enumerate_allS NODES s5 r2
  let total := qT + qF
  if total = 0 then return (((0 : ℚ), (0 : ℚ)), s6)
  else return ((qT / total, qF / total), s6)

/-! ## Dictionary lemmas -/

theorem dGet_dInsert (d : Dict) (k k' : String) (v : Bool) :
    dGet (dInsert d k v) k' = if k' = k then some v else dGet d k' := by
  induction d with
  | nil =>
    rcases eq_or_ne k' k with h | h
    · simp [dInsert, dGet, h]
    · simp [dInsert, dGet, h, Ne.symm h]
  | cons a d ih =>
    by_cases h1 : a.1 = k <;> by_cases h2 : a.1 = k' <;> by_cases h3 : k' = k <;>
      simp_all [dInsert, dGet, List.filter_cons]

/-! ## Evaluation lemmas for `restrict` and `prob_of` -/

theorem restrict_eq_none_iff (a : Dict) (ps : List String) :
    restrict a ps = none ↔ ∃ p ∈ ps, dGet a p = none := by
  induction ps with
  | nil => simp [restrict]
  | cons p ps ih =>
    cases h : dGet a p with
    | none =>
      constructor
      · intro _
        exact ⟨p, List.mem_cons_self p ps, h⟩
      · intro _
        simp [restrict, h]
    | some v =>
      cases h2 : restrict a ps with
      | none =>
        constructor
        · intro _
          obtain ⟨q, hq, hn⟩ := ih.mp h2
          exact ⟨q, List.mem_cons_of_mem _ hq, hn⟩
        · intro _
          simp [restrict, h, h2]
      | some d =>
        simp only [restrict, h, h2, Option.some_bind]
        constructor
        · intro hk
          simp at hk
        · rintro ⟨q, hq, hn⟩
          rcases List.mem_cons.mp hq with rfl | hq'
          · rw [h] at hn
            simp at hn
          · exact absurd h2 (by simp [ih.mpr ⟨q, hq', hn⟩])

theorem restrict_isSome (a : Dict) (ps : List String)
    (h : ∀ p ∈ ps, (dGet a p).isSome) : (restrict a ps).isSome := by
  rw [Option.isSome_iff_ne_none]
  intro hn
  obtain ⟨p, hp, h0⟩ := (restrict_eq_none_iff a ps).mp hn
  have := h p hp
  simp [h0] at this

theorem prob_of_eq_some (v : String) (ps : List String) (cpt : Dict → ℚ)
    (value : Bool) (a d : Dict) (hB : BAYES_NET v = some (ps, cpt))
    (hR : restrict a ps = some d) :
    prob_of v value a = some (if value then cpt d else 1 - cpt d) := by
  simp [prob_of, hB, hR]

theorem prob_of_eq_none_iff (v : String) (ps : List String) (cpt : Dict → ℚ)
    (value : Bool) (a : Dict) (hB : BAYES_NET v = some (ps, cpt)) :
    prob_of v value a = none ↔ ∃ p ∈ ps, dGet a p = none := by
  rw [← restrict_eq_none_iff]
  cases hR : restrict a ps with
  | none => simp [prob_of, hB, hR]
  | some d => simp [prob_of, hB, hR]

theorem prob_of_isSome (v : String) (ps : List String) (cpt : Dict → ℚ)
    (value : Bool) (a : Dict) (hB : BAYES_NET v = some (ps, cpt))
    (h : ∀ p ∈ ps, (dGet a p).isSome) : (prob_of v value a).isSome := by
  obtain ⟨d, hd⟩ := Option.isSome_iff_exists.mp (restrict_isSome a ps h)
  rw [prob_of_eq_some v ps cpt value a d hB hd]
  rfl

/-! ## Totality of enumeration over the network's variable list -/

/-- `v` is a network variable all of whose parents are among `known`. -/
def varOkB (v : String) (known : List String) : Bool :=
  match BAYES_NET v with
  | some (ps, _) => ps.all fun p => known.contains p
  | none => false

/-- Every variable in the list has all its parents among `known` or among the
variables preceding it in the list. -/
def parentsOk : List String → List String → Bool
  | [], _ => true
  | v :: rest, known => varOkB v known && parentsOk rest (v :: known)

theorem enumerate_all_isSome (vars : List String) :
    ∀ known e, parentsOk vars known = true → (∀ k ∈ known, (dGet e k).isSome) →
    (enumerate_all vars e).isSome := by
  induction vars with
  | nil =>
    intro known e _ _
    simp [enumerate_all]
  | cons v rest ih =>
    intro known e hok hkn
    simp only [parentsOk, Bool.and_eq_true] at hok
    obtain ⟨hv, hrest⟩ := hok
    cases hB : BAYES_NET v with
    | none => simp [varOkB, hB] at hv
    | some pc =>
      obtain ⟨ps, cpt⟩ := pc
      have hps : ∀ p ∈ ps, (dGet e p).isSome := by
        intro p hp
        have hc : ∀ x ∈ ps, x ∈ known := by simpa [varOkB, hB] using hv
        exact hkn p (hc p hp)
      cases hev : dGet e v with
      | some b =>
        have h1 := prob_of_isSome v ps cpt b e hB hps
        have h2 : (enumerate_all rest e).isSome := by
          refine ih (v :: known) e hrest ?_
          intro k hk
          rcases List.mem_cons.mp hk with rfl | hk'
          · simp [hev]
          · exact hkn k hk'
        obtain ⟨p, hp⟩ := Option.isSome_iff_exists.mp h1
        obtain ⟨q, hq⟩ := Option.isSome_iff_exists.mp h2
        simp [enumerate_all, hev, hp, hq]
      | none =>
        have hps' : ∀ (b : Bool), ∀ p ∈ ps, (dGet (dInsert e v b) p).isSome := by
          intro b p hp
          rw [dGet_dInsert]
          split
          · rfl
          · exact hps p hp
        have hknown' : ∀ (b : Bool), ∀ k ∈ v :: known, (dGet (dInsert e v b) k).isSome := by
          intro b k hk
          rcases List.mem_cons.mp hk with rfl | hk'
          · simp [dGet_dInsert]
          · rw [dGet_dInsert]
            split
            · rfl
            · exact hkn k hk'
        obtain ⟨pT, hpT⟩ := Option.isSome_iff_exists.mp
          (prob_of_isSome v ps cpt true (dInsert e v true) hB (hps' true))
        obtain ⟨qT, hqT⟩ := Option.isSome_iff_exists.mp
          (ih (v :: known) (dInsert e v true) hrest (hknown' true))
        obtain ⟨pF, hpF⟩ := Option.isSome_iff_exists.mp
          (prob_of_isSome v ps cpt false (dInsert e v false) hB (hps' false))
        obtain ⟨qF, hqF⟩ := Option.isSome_iff_exists.mp
          (ih (v :: known) (dInsert e v false) hrest (hknown' false))
        simp [enumerate_all, hev, hpT, hqT, hpF, hqF]

theorem enumerate_all_NODES_isSome (e : Dict) : (enumerate_all NODES e).isSome :=
  enumerate_all_isSome NODES [] e (by decide) (by simp)

theorem enumeration_ask_total (q : String) (e : Dict) :
    ∃ d, enumeration_ask q e = some d := by
  obtain ⟨uT, hT⟩ := Option.isSome_iff_exists.mp
    (enumerate_all_NODES_isSome (dInsert e q true))
  obtain ⟨uF, hF⟩ := Option.isSome_iff_exists.mp
    (enumerate_all_NODES_isSome (dInsert e q false))
  by_cases h : uT + uF = 0
  · exact ⟨(0, 0), by simp [enumeration_ask, hT, hF, h]⟩
  · exact ⟨(uT / (uT + uF), uF / (uT + uF)), by simp [enumeration_ask, hT, hF, h]⟩

/-! ## Frame lemmas for the heap-indexed embedding -/

theorem readRef_alloc (s : Store) (d : Dict) (r : Nat) (h : r < s.next) :
    readRef (alloc s d).1 r = readRef s r := by
  simp [alloc, readRef, Nat.ne_of_lt h]

theorem next_alloc (s : Store) (d : Dict) : (alloc s d).1.next = s.next + 1 := rfl

theorem ref_alloc (s : Store) (d : Dict) : (alloc s d).2 = s.next := rfl

theorem readRef_writeKey_ne (s : Store) (x : Nat) (k : String) (v : Bool) (r : Nat)
    (h : r ≠ x) : readRef (writeKey s x k v) r = readRef s r := by
  simp [writeKey, readRef, h]

theorem next_writeKey (s : Store) (x : Nat) (k : String) (v : Bool) :
    (writeKey s x k v).next = s.next := rfl

/-- Enumeration only ever writes through references it allocates itself:
every reference allocated before the call reads back unchanged. -/
theorem enumerate_allS_frame (vars : List String) :
    ∀ s ev q s', enumerate_allS vars s ev = some (q, s') →
      s.next ≤ s'.next ∧ ∀ r, r < s.next → readRef s' r = readRef s r := by
  induction vars with
  | nil =>
    intro s ev q s' h
    simp only [enumerate_allS, Option.some_inj, Prod.mk.injEq] at h
    obtain ⟨-, rfl⟩ := h
    exact ⟨Nat.le_refl _, fun r _ => rfl⟩
  | cons v rest ih =>
    intro s ev q s' h
    cases hev : dGet (readRef s ev) v with
    | some b =>
      simp only [enumerate_allS, hev, Option.bind_eq_bind] at h
      obtain ⟨p, hp, h⟩ := Option.bind_eq_some.mp h
      obtain ⟨⟨q1, s1⟩, hq, h⟩ := Option.bind_eq_some.mp h
      simp only [Option.some_inj, Prod.mk.injEq] at h
      obtain ⟨-, rfl⟩ := h
      exact ih _ _ _ _ hq
    | none =>
      simp only [enumerate_allS, hev, Option.bind_eq_bind] at h
      obtain ⟨pT, hpT, h⟩ := Option.bind_eq_some.mp h
      obtain ⟨⟨qT, s3⟩, hqT, h⟩ := Option.bind_eq_some.mp h
      obtain ⟨pF, hpF, h⟩ := Option.bind_eq_some.mp h
      obtain ⟨⟨qF, s6⟩, hqF, h⟩ := Option.bind_eq_some.mp h
      simp only [Option.some_inj, Prod.mk.injEq] at h
      obtain ⟨-, rfl⟩ := h
      have h3 := ih _ _ _ _ hqT
      have h6 := ih _ _ _ _ hqF
      constructor
      · calc s.next ≤ s.next + 1 := Nat.le_succ _
          _ ≤ s3.next := by simpa [next_writeKey, next_alloc] using h3.1
          _ ≤ s3.next + 1 := Nat.le_succ _
          _ ≤ s'.next := by simpa [next_writeKey, next_alloc] using h6.1
      · intro r hr
        have hr3 : r < s3.next := by
          have := h3.1
          simp only [next_writeKey, next_alloc] at this
          omega
        have e1 : readRef (writeKey (alloc s (readRef s ev)).1 (alloc s (readRef s ev)).2 v true) r
            = readRef s r := by
          rw [readRef_writeKey_ne _ _ _ _ _ (by simp [ref_alloc]; omega),
            readRef_alloc _ _ _ hr]
        have e2 : readRef s3 r = readRef s r := by
          rw [h3.2 r (by simp [next_writeKey, next_alloc]; omega), e1]
        have e3 : readRef (writeKey (alloc s3 (readRef s3 ev)).1 (alloc s3 (readRef s3 ev)).2 v false) r
            = readRef s3 r := by
          rw [readRef_writeKey_ne _ _ _ _ _ (by simp [ref_alloc]; omega),
            readRef_alloc _ _ _ hr3]
        rw [h6.2 r (by simp [next_writeKey, next_alloc]; omega), e3, e2]

/-- The same frame property for `enumeration_askS`. -/
theorem enumeration_askS_frame (q : String) (s : Store) (ev : Nat) :
    ∀ d s', enumeration_askS q s ev = some (d, s') →
      s.next ≤ s'.next ∧ ∀ r, r < s.next → readRef s' r = readRef s r := by
  intro d s' h
  simp only [enumeration_askS, Option.bind_eq_bind] at h
  obtain ⟨⟨qT, s3⟩, hqT, h⟩ := Option.bind_eq_some.mp h
  obtain ⟨⟨qF, s6⟩, hqF, h⟩ := Option.bind_eq_some.mp h
  have h3 := enumerate_allS_frame NODES _ _ _ _ hqT
  have h6 := enumerate_allS_frame NODES _ _ _ _ hqF
  have hs' : s6 = s' := by
    by_cases h0 : qT + qF = 0 <;> simp [h0] at h <;> exact h.2
  subst hs'
  constructor
  · calc s.next ≤ s.next + 1 := Nat.le_succ _
      _ ≤ s3.next := by simpa [next_writeKey, next_alloc] using h3.1
      _ ≤ s3.next + 1 := Nat.le_succ _
      _ ≤ s6.next := by simpa [next_writeKey, next_alloc] using h6.1
  · intro r hr
    have hr3 : r < s3.next := by
      have := h3.1
      simp only [next_writeKey, next_alloc] at this
      omega
    have e1 : readRef (writeKey (alloc s (readRef s ev)).1 (alloc s (readRef s ev)).2 q true) r
        = readRef s r := by
      rw [readRef_writeKey_ne _ _ _ _ _ (by simp [ref_alloc]; omega),
        readRef_alloc _ _ _ hr]
    have e2 : readRef s3 r = readRef s r := by
      rw [h3.2 r (by simp [next_writeKey, next_alloc]; omega), e1]
    have e3 : readRef (writeKey (alloc s3 (readRef s3 ev)).1 (alloc s3 (readRef s3 ev)).2 q false) r
        = readRef s3 r := by
      rw [readRef_writeKey_ne _ _ _ _ _ (by simp [ref_alloc]; omega),
        readRef_alloc _ _ _ hr3]
    rw [h6.2 r (by simp [next_writeKey, next_alloc]; omega), e3, e2]

/-! ## Overwriting an existing key -/

theorem dInsert_dRemove (e : Dict) (k : String) (v : Bool) :
    dInsert (dRemove e k) k v = dInsert e k v := by
  simp [dInsert, dRemove, List.filter_filter, Bool.and_self]

/-! ## Claims -/

/-- C1: `enumeration_ask q e` normalizes the two unnormalized values
`enumerate_all NODES (e with q:=v)`: when their total is zero it returns
`(0, 0)`, otherwise each value divided by the total, and the returned
probabilities then sum to 1. -/
theorem enumeration_ask_normalizes (q : String) (e : Dict) (uT uF : ℚ)
    (hT : enumerate_all NODES (dInsert e q true) = some uT)
    (hF : enumerate_all NODES (dInsert e q false) = some uF) :
    (uT + uF = 0 → enumeration_ask q e = some (0, 0)) ∧
    (uT + uF ≠ 0 →
      enumeration_ask q e = some (uT / (uT + uF), uF / (uT + uF)) ∧
      uT / (uT + uF) + uF / (uT + uF) = 1) := by
  constructor
  · intro h0
    simp [enumeration_ask, hT, hF, h0]
  · intro h0
    refine ⟨by simp [enumeration_ask, hT, hF, h0], ?_⟩
    rw [div_add_div_same, div_self h0]

/-- C1 witness: the prior query `enumeration_ask "Cloudy" {}` with
unnormalized values `1/2` and `1/2`. -/
theorem enumeration_ask_normalizes_witness :
    enumerate_all NODES (dInsert [] "Cloudy" true) = some (1/2) ∧
    enumerate_all NODES (dInsert [] "Cloudy" false) = some (1/2) ∧
    enumeration_ask "Cloudy" [] = some ((1:ℚ)/2 / (1/2 + 1/2), (1:ℚ)/2 / (1/2 + 1/2)) ∧
    (1:ℚ)/2 / (1/2 + 1/2) + (1:ℚ)/2 / (1/2 + 1/2) = 1 := by
  have hT : enumerate_all NODES (dInsert [] "Cloudy" true) = some (1/2) := by
    norm_num +decide [enumerate_all, prob_of, BAYES_NET, restrict, dGet, dInsert, NODES,
      p_cloudy, p_sprinkler, p_rain, p_wetgrass]
  have hF : enumerate_all NODES (dInsert [] "Cloudy" false) = some (1/2) := by
    norm_num +decide [enumerate_all, prob_of, BAYES_NET, restrict, dGet, dInsert, NODES,
      p_cloudy, p_sprinkler, p_rain, p_wetgrass]
  have h := (enumeration_ask_normalizes "Cloudy" [] (1/2) (1/2) hT hF).2 (by norm_num)
  exact ⟨hT, hF, h.1, h.2⟩

set_option maxHeartbeats 4000000 in
/-- C2: for every complete assignment over the four variables and every
network variable `v`, the joint probability with `v:=true` plus the joint
probability with `v:=false` equals `enumerate_all NODES` on the assignment
with `v` removed. -/
theorem joint_prob_marginal_consistency (c s r w : Bool) (v : String) (hv : v ∈ NODES) :
    (do
      let x ← joint_prob (dInsert (mkAssign c s r w) v true)
      let y ← joint_prob (dInsert (mkAssign c s r w) v false)
      return x + y) = enumerate_all NODES (dRemove (mkAssign c s r w) v) := by
  have hv' : v = "Cloudy" ∨ v = "Sprinkler" ∨ v = "Rain" ∨ v = "WetGrass" := by
    simpa [NODES] using hv
  rcases hv' with rfl | rfl | rfl | rfl <;> cases c <;> cases s <;> cases r <;> cases w <;>
    norm_num +decide [joint_prob, enumerate_all, prob_of, BAYES_NET, restrict, dGet,
      dInsert, dRemove, NODES, mkAssign, p_cloudy, p_sprinkler, p_rain, p_wetgrass]

/-- C2 witness: marginalizing `Cloudy` out of the all-true assignment. -/
theorem joint_prob_marginal_consistency_witness :
    "Cloudy" ∈ NODES ∧
    (do
      let x ← joint_prob (dInsert (mkAssign true true true true) "Cloudy" true)
      let y ← joint_prob (dInsert (mkAssign true true true true) "Cloudy" false)
      return x + y) = enumerate_all NODES (dRemove (mkAssign true true true true) "Cloudy") :=
  ⟨by decide, joint_prob_marginal_consistency true true true true "Cloudy" (by decide)⟩

set_option maxHeartbeats 1000000 in
/-- C3: the sum of `joint_prob` over all 16 complete assignments of the
example network is exactly 1 (hence within `1e-9` of `1.0`). -/
theorem joint_prob_total_mass :
    (allAssignments.mapM joint_prob).map List.sum = some 1 := by
  norm_num +decide [allAssignments, List.mapM, List.mapM.loop, joint_prob, prob_of,
    BAYES_NET, restrict, dGet, NODES, mkAssign, p_cloudy, p_sprinkler, p_rain, p_wetgrass]

/-- C4: for every network variable and every assignment with all its parents
present, `prob_of` at `true` and at `false` are defined and sum exactly to 1
(hence within `1e-9` of `1.0`). -/
theorem prob_of_complement (v : String) (ps : List String) (cpt : Dict → ℚ) (a : Dict)
    (hB : BAYES_NET v = some (ps, cpt)) (hps : ∀ p ∈ ps, (dGet a p).isSome) :
    ∃ pT pF, prob_of v true a = some pT ∧ prob_of v false a = some pF ∧ pT + pF = 1 := by
  obtain ⟨d, hd⟩ := Option.isSome_iff_exists.mp (restrict_isSome a ps hps)
  refine ⟨cpt d, 1 - cpt d, ?_, ?_, by ring⟩
  · simpa using prob_of_eq_some v ps cpt true a d hB hd
  · simpa using prob_of_eq_some v ps cpt false a d hB hd

/-- C4 witness: `WetGrass` with both parents assigned. -/
theorem prob_of_complement_witness :
    BAYES_NET "WetGrass" = some (["Sprinkler", "Rain"], p_wetgrass) ∧
    (∀ p ∈ ["Sprinkler", "Rain"], (dGet [("Sprinkler", true), ("Rain", false)] p).isSome) ∧
    ∃ pT pF, prob_of "WetGrass" true [("Sprinkler", true), ("Rain", false)] = some pT ∧
      prob_of "WetGrass" false [("Sprinkler", true), ("Rain", false)] = some pF ∧
      pT + pF = 1 :=
  ⟨rfl, by decide,
    prob_of_complement "WetGrass" ["Sprinkler", "Rain"] p_wetgrass
      [("Sprinkler", true), ("Rain", false)] rfl (by decide)⟩

/-- C5 counterexample: with an unknown query variable and an unknown
evidence key, `enumeration_ask` raises nothing and returns a normal
distribution — contradicting the claim that it raises
`UnknownVariableError` and produces no output. -/
theorem enumeration_ask_unknown_counterexample :
    enumeration_ask "Foo" [("Bar", true)] = some (1/2, 1/2) := by
  norm_num +decide [enumeration_ask, enumerate_all, prob_of, BAYES_NET, restrict, dGet,
    dInsert, NODES, p_cloudy, p_sprinkler, p_rain, p_wetgrass]

/-- C5 amended: `enumeration_ask` never fails, for any query and any
evidence; variable names absent from the network are silently ignored
during enumeration (only the CLI's `parse_assignment` rejects unknown
evidence names). -/
theorem enumeration_ask_never_fails (query : String) (evidence : Dict) :
    ∃ d, enumeration_ask query evidence = some d :=
  enumeration_ask_total query evidence

/-- C6: for a network variable, `prob_of` fails exactly when some declared
parent is missing from the assignment; with all parents present it returns
the CPT value at `true` and one minus it at `false`. -/
theorem prob_of_missing_parent_spec (v : String) (ps : List String) (cpt : Dict → ℚ)
    (value : Bool) (a : Dict) (hB : BAYES_NET v = some (ps, cpt)) :
    (prob_of v value a = none ↔ ∃ p ∈ ps, dGet a p = none) ∧
    (∀ d, restrict a ps = some d →
      prob_of v value a = some (if value then cpt d else 1 - cpt d)) :=
  ⟨prob_of_eq_none_iff v ps cpt value a hB,
   fun d hd => prob_of_eq_some v ps cpt value a d hB hd⟩

/-- C6 witness: `Sprinkler` with its parent `Cloudy` missing fails. -/
theorem prob_of_missing_parent_spec_witness :
    BAYES_NET "Sprinkler" = some (["Cloudy"], p_sprinkler) ∧
    prob_of "Sprinkler" true [] = none :=
  ⟨rfl, (prob_of_missing_parent_spec "Sprinkler" ["Cloudy"] p_sprinkler true [] rfl).1.mpr
    ⟨"Cloudy", by decide, rfl⟩⟩

/-- C7 counterexample: the fixture joint probability is `81/250 = 0.324`,
which is not within any reasonable tolerance of the claimed `0.00356400`
(it exceeds it by more than `1/100`). -/
theorem joint_prob_fixture_counterexample :
    joint_prob (mkAssign true false true true) = some (81/250) ∧
    (3564 : ℚ)/1000000 + 1/100 < 81/250 := by
  constructor
  · norm_num +decide [joint_prob, prob_of, BAYES_NET, restrict, dGet, NODES, mkAssign,
      p_cloudy, p_sprinkler, p_rain, p_wetgrass]
  · norm_num

/-- C7 amended: `joint_prob({Cloudy:T, Sprinkler:F, Rain:T, WetGrass:T})`
equals exactly `0.324 = 0.5 × 0.9 × 0.8 × 0.9` (WetGrass given exactly one
wet parent has probability `0.9`, not `0.99`). -/
theorem joint_prob_fixture_value :
    joint_prob (mkAssign true false true true) = some (81/250) := by
  norm_num +decide [joint_prob, prob_of, BAYES_NET, restrict, dGet, NODES, mkAssign,
    p_cloudy, p_sprinkler, p_rain, p_wetgrass]

/-- C8 counterexample: `enumeration_ask("Rain", {WetGrass: true})[true]` is
`509/719 ≈ 0.7079`, more than `1/100` below the claimed `0.7577`. -/
theorem enumeration_ask_rain_counterexample :
    enumeration_ask "Rain" [("WetGrass", true)] = some (509/719, 210/719) ∧
    (509 : ℚ)/719 + 1/100 < 7577/10000 := by
  constructor
  · norm_num +decide [enumeration_ask, enumerate_all, prob_of, BAYES_NET, restrict, dGet,
      dInsert, NODES, p_cloudy, p_sprinkler, p_rain, p_wetgrass]
  · norm_num

/-- C8 amended: the posterior `P(Rain=true | WetGrass=true)` of the example
network is exactly `509/719 ≈ 0.7079`. -/
theorem enumeration_ask_rain_value :
    enumeration_ask "Rain" [("WetGrass", true)] = some (509/719, 210/719) := by
  norm_num +decide [enumeration_ask, enumerate_all, prob_of, BAYES_NET, restrict, dGet,
    dInsert, NODES, p_cloudy, p_sprinkler, p_rain, p_wetgrass]

/-- C9: neither `enumerate_all` nor `enumeration_ask` mutates the dict any
pre-existing reference points to: whatever either call returns, every
reference allocated before the call (in particular the caller's evidence)
reads back exactly as before; branch extensions happen only on fresh
copies. -/
theorem enumeration_no_evidence_mutation (query : String) (vars : List String)
    (s : Store) (ev r : Nat) (hr : r < s.next) :
    (enumerate_allS vars s ev).map (fun x => readRef x.2 r) =
      (enumerate_allS vars s ev).map (fun _ => readRef s r) ∧
    (enumeration_askS query s ev).map (fun x => readRef x.2 r) =
      (enumeration_askS query s ev).map (fun _ => readRef s r) := by
  constructor
  · cases h : enumerate_allS vars s ev with
    | none => rfl
    | some x =>
      obtain ⟨q1, s1⟩ := x
      have he := (enumerate_allS_frame vars s ev q1 s1 h).2 r hr
      simp [he]
  · cases h : enumeration_askS query s ev with
    | none => rfl
    | some x =>
      obtain ⟨d1, s1⟩ := x
      have he := (enumeration_askS_frame query s ev d1 s1 h).2 r hr
      simp [he]

/-- The one-reference store holding the evidence `{WetGrass: true}`. -/
def S0 : Store :=
  { mem := fun r => if r = 0 then [("WetGrass", true)] else [], next := 1 }

/-- C9 witness: the demo query `P(Rain | WetGrass=true)` leaves the stored
evidence dict unchanged. -/
theorem enumeration_no_evidence_mutation_witness :
    0 < S0.next ∧
    ((enumerate_allS NODES S0 0).map (fun x => readRef x.2 0) =
      (enumerate_allS NODES S0 0).map (fun _ => readRef S0 0) ∧
    (enumeration_askS "Rain" S0 0).map (fun x => readRef x.2 0) =
      (enumeration_askS "Rain" S0 0).map (fun _ => readRef S0 0)) :=
  ⟨by decide, enumeration_no_evidence_mutation "Rain" NODES S0 0 0 (by decide)⟩

/-- C10: when the query already has a value in the evidence,
`enumeration_ask` does not fail, and it returns exactly the distribution of
the query over the evidence with the query's key removed (each branch
overwrites the key). -/
theorem enumeration_ask_overwrites_query (query : String) (evidence : Dict)
    (_hq : (dGet evidence query).isSome) :
    (∃ d, enumeration_ask query evidence = some d) ∧
    enumeration_ask query evidence = enumeration_ask query (dRemove evidence query) := by
  refine ⟨enumeration_ask_total query evidence, ?_⟩
  simp only [enumeration_ask, dInsert_dRemove]

/-- C10 witness: querying `Rain` with `Rain` already observed. -/
theorem enumeration_ask_overwrites_query_witness :
    (dGet [("Rain", true)] "Rain").isSome ∧
    ((∃ d, enumeration_ask "Rain" [("Rain", true)] = some d) ∧
      enumeration_ask "Rain" [("Rain", true)] =
        enumeration_ask "Rain" (dRemove [("Rain", true)] "Rain")) :=
  ⟨by decide, enumeration_ask_overwrites_query "Rain" [("Rain", true)] (by decide)⟩
